import Mathlib

/-!
Verification development for the README-to-landing-page extraction engine.

The engine walks a parsed markdown document tree (produced by an external
markdown parser) and infers the structured fields of a landing-page model:
title, tagline, call to action, secondary links, features, sections (with
canonical titles, slug ids and priority reordering), badges, hero image,
statistics, technology tags and testimonials.

The definitions below are a shallow embedding of `src/lib/types.ts`
(the remark-based parser module).  JavaScript strings are modelled as Lean
`String` (sequences of Unicode code points), JS arrays as `List`, JS
`undefined`-able values as `Option`, and the one JS expression that can
throw (`new URL(...)`) as an `Option`-returning function, so that the
whole pipeline is an `Option PageModel`.
-/

namespace R2L

/-! ## JavaScript string primitives -/

/-- Whitespace characters recognised by the JS `\s` class, `trim` and the
whitespace splits used in the source (restricted to the ASCII whitespace
that the inputs of the engine contain). -/
def isSpaceJS (c : Char) : Bool :=
  c == ' ' || c == '\t' || c == '\n' || c == '\r' ||
  c == Char.ofNat 11 || c == Char.ofNat 12

/-- `matchHere pat cs` holds when `pat` is a prefix of `cs`. -/
def matchHere : List Char → List Char → Bool
  | [], _ => true
  | _ :: _, [] => false
  | p :: ps, c :: cs => p == c && matchHere ps cs

/-- `subOccurs needle hay`: the needle occurs contiguously inside the hay. -/
def subOccurs : List Char → List Char → Bool
  | n, [] => matchHere n []
  | n, c :: cs => matchHere n (c :: cs) || subOccurs n cs

/-- JS `hay.includes(needle)`. -/
def jsIncludes (hay needle : String) : Bool :=
  subOccurs needle.data hay.data

/-- JS `s.startsWith(pre)`. -/
def jsStartsWith (s pre : String) : Bool :=
  matchHere pre.data s.data

/-- JS `toLowerCase` on one character (ASCII range, which is all the
keyword tables of the engine compare against). -/
def jsCharToLower (c : Char) : Char :=
  if 65 ≤ c.toNat ∧ c.toNat ≤ 90 then Char.ofNat (c.toNat + 32) else c

/-- JS `s.toLowerCase()`. -/
def jsToLower (s : String) : String :=
  ⟨s.data.map jsCharToLower⟩

/-- JS `s.trim()`. -/
def jsTrim (s : String) : String :=
  ⟨((s.data.dropWhile isSpaceJS).reverse.dropWhile isSpaceJS).reverse⟩

/-- JS `s.substring(0, n)` (code-point based in this model). -/
def strTake (s : String) (n : Nat) : String :=
  ⟨s.data.take n⟩

/-- An apostrophe character, used inside the feature-keyword table. -/
def apos : String := String.singleton (Char.ofNat 39)

/-- JS `s.split(/\s+/)` with the fuel argument bounding recursion depth. -/
def splitWSAux : Nat → List Char → List Char → List String
  | 0, _, cur => [String.mk cur]
  | _ + 1, [], cur => [String.mk cur]
  | f + 1, c :: rest, cur =>
    if isSpaceJS c then String.mk cur :: splitWSAux f (rest.dropWhile isSpaceJS) []
    else splitWSAux f rest (cur ++ [c])

/-- JS `s.split(/\s+/)`. -/
def jsSplitWS (s : String) : List String :=
  splitWSAux (s.data.length + 1) s.data []

/-- JS `s.replace(pat, repl)` on the first occurrence (list core). -/
def replFirstAux (repl : List Char) (pat : List Char) : List Char → List Char
  | [] => []
  | c :: cs =>
    if matchHere pat (c :: cs) then repl ++ (c :: cs).drop pat.length
    else c :: replFirstAux repl pat cs

/-- JS `s.replace(pat, repl)` (first occurrence only, like a non-global
string-pattern replace). -/
def jsReplaceFirst (s pat repl : String) : String :=
  if pat.data.isEmpty then repl ++ s
  else ⟨replFirstAux repl.data pat.data s.data⟩

/-! ## The markdown document tree (mdast model)

The tree parser is an external collaborator; the engine only consumes the
node variants below, with a pre-order depth-first visitor. -/

/-- A markdown tree node, covering the variants the engine inspects.
`image.alt` and `code.lang` are nullable in mdast; the empty string models
the absent value (matching the JS truthiness tests in the source). -/
inductive MDNode where
  | heading (depth : Nat) (children : List MDNode)
  | paragraph (children : List MDNode)
  | text (value : String)
  | link (url : String) (children : List MDNode)
  | image (url : String) (alt : String)
  | list (children : List MDNode)
  | listItem (children : List MDNode)
  | code (lang : String) (value : String)
  | blockquote (children : List MDNode)
  | strong (children : List MDNode)
  | emphasis (children : List MDNode)

mutual

/-- `extractTextFromNode`: concatenates all text leaves below a node. -/
def textOf : MDNode → String
  | MDNode.text v => v
  | MDNode.heading _ ch => textOfList ch
  | MDNode.paragraph ch => textOfList ch
  | MDNode.link _ ch => textOfList ch
  | MDNode.image _ _ => ""
  | MDNode.list ch => textOfList ch
  | MDNode.listItem ch => textOfList ch
  | MDNode.code _ _ => ""
  | MDNode.blockquote ch => textOfList ch
  | MDNode.strong ch => textOfList ch
  | MDNode.emphasis ch => textOfList ch

/-- Text concatenation over a list of sibling nodes. -/
def textOfList : List MDNode → String
  | [] => ""
  | n :: ns => textOf n ++ textOfList ns

end

mutual

/-- Pre-order depth-first listing of a node and its descendants: the visit
order of the `unist-util-visit` callback. -/
def preorder : MDNode → List MDNode
  | MDNode.text v => [MDNode.text v]
  | MDNode.image u a => [MDNode.image u a]
  | MDNode.code l v => [MDNode.code l v]
  | MDNode.heading d ch => MDNode.heading d ch :: preorderList ch
  | MDNode.paragraph ch => MDNode.paragraph ch :: preorderList ch
  | MDNode.link u ch => MDNode.link u ch :: preorderList ch
  | MDNode.list ch => MDNode.list ch :: preorderList ch
  | MDNode.listItem ch => MDNode.listItem ch :: preorderList ch
  | MDNode.blockquote ch => MDNode.blockquote ch :: preorderList ch
  | MDNode.strong ch => MDNode.strong ch :: preorderList ch
  | MDNode.emphasis ch => MDNode.emphasis ch :: preorderList ch

/-- Pre-order listing of a forest of sibling nodes. -/
def preorderList : List MDNode → List MDNode
  | [] => []
  | n :: ns => preorder n ++ preorderList ns

end

/-- Node-type test: depth-1 heading. -/
def isH1node : MDNode → Bool
  | MDNode.heading d _ => d == 1
  | _ => false

/-- Node-type test: paragraph. -/
def isParagraphNode : MDNode → Bool
  | MDNode.paragraph _ => true
  | _ => false

/-- Node-type test: image. -/
def isImageNode : MDNode → Bool
  | MDNode.image _ _ => true
  | _ => false

/-- Node-type test: list item. -/
def isListItemNode : MDNode → Bool
  | MDNode.listItem _ => true
  | _ => false

/-- Node-type test: code block. -/
def isCodeNode : MDNode → Bool
  | MDNode.code _ _ => true
  | _ => false

/-- Node-type test: block quote. -/
def isBlockquoteNode : MDNode → Bool
  | MDNode.blockquote _ => true
  | _ => false

/-- Node-type test: strong (bold) span. -/
def isStrongNode : MDNode → Bool
  | MDNode.strong _ => true
  | _ => false

/-! ## The page model -/

/-- A `{label, href}` pair, used for every collected hyperlink and for the
call to action. -/
structure Link where
  label : String
  href : String
deriving DecidableEq

/-- One content section of the result: slug id, canonical title, and the
reconstructed markdown content. -/
structure Section where
  id : String
  title : String
  content : String
deriving DecidableEq

/-- One feature card. -/
structure Feature where
  title : String
  desc : Option String
  icon : Option String
deriving DecidableEq

/-- One badge. -/
structure Badge where
  label : String
  href : Option String
deriving DecidableEq

/-- The hero image. -/
structure Hero where
  url : String
  alt : String
deriving DecidableEq

/-- One statistic, e.g. value "50k" with label "downloads". -/
structure Stat where
  label : String
  value : String
deriving DecidableEq

/-- One testimonial. -/
structure Testimonial where
  quote : String
  author : Option String
deriving DecidableEq

/-- The result record assembled by `parseReadme`.  In the source,
`extractBadges` always returns an array (possibly empty), while the hero
image, stats, tech-stack and testimonial extractors return `undefined`
when nothing was found; the field types mirror that. -/
structure PageModel where
  title : String
  tagline : String
  cta : Link
  secondaryLinks : List Link
  features : List Feature
  sections : List Section
  badges : List Badge
  heroImage : Option Hero
  stats : Option (List Stat)
  techStack : Option (List String)
  testimonials : Option (List Testimonial)
deriving DecidableEq

/-! ## Field extractors (`src/lib/types.ts`) -/

/-- `extractTitle`: the text of the first depth-1 heading; else first paragraph with
non-empty trimmed text; else the fixed placeholder. -/
def extractTitle (ast : List MDNode) : String :=
  let fromH1 :=
    (((preorderList ast).filter isH1node).map textOf).find? (fun t => t != "")
  let t :=
    match fromH1 with
    | some t => t
    | none =>
      ((((preorderList ast).filter isParagraphNode).map (fun n => jsTrim (textOf n))).find?
        (fun t => t != "")).getD ""
  if t = "" then "Untitled Project" else t

/-- The scanning loop of `extractTagline` over the root children:
state is (found-H1 flag, paragraph count, current tagline). -/
def taglineLoop : List MDNode → Bool → Nat → String → String
  | [], _, _, t => t
  | n :: ns, f, cnt, t =>
    if isH1node n then taglineLoop ns true cnt t
    else if f then
      match n with
      | MDNode.paragraph ch =>
        let tx := jsTrim (textOfList ch)
        if tx ≠ "" then
          if cnt + 1 = 1 ∧ tx.length < 200 then tx
          else if t = "" ∧ tx.length < 200 then taglineLoop ns f (cnt + 1) tx
          else taglineLoop ns f (cnt + 1) t
        else taglineLoop ns f cnt t
      | MDNode.heading d _ =>
        if 2 ≤ d ∧ t = "" then t else taglineLoop ns f cnt t
      | _ => taglineLoop ns f cnt t
    else taglineLoop ns f cnt t

/-- The tagline candidate before truncation: the pick of the loop, or, when it
found nothing, the first short non-empty paragraph anywhere. -/
def taglineCandidate (ast : List MDNode) : String :=
  let t := taglineLoop ast false 0 ""
  if t = "" then
    ((((preorderList ast).filter isParagraphNode).map (fun n => jsTrim (textOf n))).find?
      (fun tx => tx != "" && decide (tx.length < 200))).getD ""
  else t

/-- The truncation step: over 160 characters becomes 157 plus an ellipsis. -/
def taglineTrunc (u : String) : String :=
  if 160 < u.length then strTake u 157 ++ "..." else u

/-- `extractTagline`: first short paragraph after the first H1, falling back
to the first short paragraph anywhere, truncated to 157 characters plus an
ellipsis when longer than 160, with a fixed placeholder default. -/
def extractTagline (ast : List MDNode) : String :=
  if taglineTrunc (taglineCandidate ast) = "" then
    "A great project that solves real problems."
  else taglineTrunc (taglineCandidate ast)

/-- `extractLinks`: every link node in visit order, as `{label, href}`,
kept only when both the url and the anchor text are non-empty. -/
def extractLinks (ast : List MDNode) : List Link :=
  (preorderList ast).filterMap (fun n =>
    match n with
    | MDNode.link url ch =>
      let label := textOfList ch
      if url != "" && label != "" then some ⟨label, url⟩ else none
    | _ => none)

/-! ### Section segmentation -/

/-- The decorative glyphs the segmenter strips from heading text (the
character class in the two global glyph-stripping replace calls). -/
def decorGlyphs : List Char :=
  "✨🎯🚀📝💡🛠📁🌐📄🔗🙏".data ++ [Char.ofNat 0xFE0F]

/-- Removes the decorative glyphs from a string. -/
def stripGlyphs (s : String) : String :=
  ⟨s.data.filter (fun c => !(decorGlyphs.contains c))⟩

/-- The JS whitespace-to-hyphen replace: each whitespace run becomes one hyphen. -/
def wsToHyphenAux : Nat → List Char → List Char
  | 0, _ => []
  | _ + 1, [] => []
  | f + 1, c :: rest =>
    if isSpaceJS c then '-' :: wsToHyphenAux f (rest.dropWhile isSpaceJS)
    else c :: wsToHyphenAux f rest

/-- Characters that survive the slug filter replace (keep only a-z, 0-9, hyphen). -/
def keepSlugChar (c : Char) : Bool :=
  (97 ≤ c.toNat ∧ c.toNat ≤ 122) || (48 ≤ c.toNat ∧ c.toNat ≤ 57) || c.toNat = 45

/-- The slug of an already lower-cased, glyph-stripped heading text. -/
def slugOf (low : String) : String :=
  ⟨(wsToHyphenAux (low.data.length + 1) low.data).filter keepSlugChar⟩

/-- The canonical-title synonym table of the section segmenter. -/
def sectionTitleMap : List (String × String) :=
  [("usage", "How it works"),
   ("quickstart", "How it works"),
   ("getting started", "How it works"),
   ("how it works", "How it works"),
   ("installation", "Install"),
   ("setup", "Install"),
   ("quick start", "Quick Start"),
   ("project structure", "Project Structure"),
   ("idea categories", "Idea Categories"),
   ("tech stack", "Tech Stack"),
   ("configuration", "Configuration"),
   ("options", "Configuration"),
   ("roadmap", "Roadmap"),
   ("todo", "Roadmap"),
   ("contributing", "Contributing"),
   ("license", "License"),
   ("faq", "FAQ"),
   ("connect", "Connect"),
   ("live demo", "Live Demo"),
   ("acknowledgments", "Acknowledgments")]

/-- `nodeToString`: re-serializes one collected content node to markdown. -/
def nodeToString (n : MDNode) : String :=
  match n with
  | MDNode.text v => v
  | MDNode.paragraph ch => textOfList ch
  | MDNode.code lang v => "```" ++ lang ++ "\n" ++ v ++ "\n```"
  | MDNode.list ch => ch.foldl (fun a it => a ++ "- " ++ textOf it ++ "\n") ""
  | MDNode.blockquote ch => "> " ++ textOfList ch
  | MDNode.heading d ch => String.mk (List.replicate d '#') ++ " " ++ textOfList ch
  | other => textOf other

/-- Joins reconstructed node strings with blank lines between them. -/
def joinTwoNL : List String → String
  | [] => ""
  | s :: rest => rest.foldl (fun a b => a ++ "\n\n" ++ b) s

/-- Closes the in-progress section: dropped when its reconstructed content
is whitespace-only. -/
def finalizeSection : Option (String × String) → List MDNode → List Section
  | none, _ => []
  | some (i, t), cn =>
    if jsTrim (joinTwoNL (cn.map nodeToString)) = "" then []
    else [⟨i, t, jsTrim (joinTwoNL (cn.map nodeToString))⟩]

/-- Heading id and canonical title for a new section. -/
def sectionIdTitle (txt : String) : String × String :=
  let low := jsTrim (stripGlyphs (jsToLower txt))
  let ttl := (((sectionTitleMap.find? (fun p => p.1 == low)).map Prod.snd)).getD
    (jsTrim (stripGlyphs txt))
  (slugOf low, ttl)

/-- The segmentation loop over the root children.  Content before the
first depth-≥2 heading is skipped (`cur = none`); each depth-≥2 heading
closes the previous section and opens a new one. -/
def sectionsLoop : List MDNode → Option (String × String) → List MDNode → List Section → List Section
  | [], cur, cn, acc => acc ++ finalizeSection cur cn
  | n :: ns, cur, cn, acc =>
    match n with
    | MDNode.heading d ch =>
      if 2 ≤ d then
        sectionsLoop ns (some (sectionIdTitle (textOfList ch))) [] (acc ++ finalizeSection cur cn)
      else
        match cur with
        | some _ => sectionsLoop ns cur (cn ++ [MDNode.heading d ch]) acc
        | none => sectionsLoop ns cur cn acc
    | other =>
      match cur with
      | some _ => sectionsLoop ns cur (cn ++ [other]) acc
      | none => sectionsLoop ns cur cn acc

/-- `extractSections`: partitions the document at depth-≥2 headings. -/
def extractSections (ast : List MDNode) : List Section :=
  sectionsLoop ast none [] []

/-! ### CTA resolution -/

/-- The action keywords of the CTA resolver. -/
def demoKeywords : List String :=
  ["demo", "live", "try", "website", "playground", "app", "deploy"]

/-- A link whose lower-cased label or url contains an action keyword. -/
def hasActionKeyword (l : Link) : Bool :=
  demoKeywords.any (fun k =>
    jsIncludes (jsToLower l.label) k || jsIncludes (jsToLower l.href) k)

/-- A section matching the installation / quick-start keywords. -/
def installSectionPred (s : Section) : Bool :=
  jsIncludes (jsToLower s.title) "install" ||
  jsIncludes (jsToLower s.title) "quick start" ||
  jsIncludes s.id "installation" ||
  jsIncludes s.id "setup" ||
  jsIncludes s.id "quick-start"

/-- The GitHub fallback of the CTA resolver. -/
def ctaGithub (links : List Link) : Link :=
  match links.find? (fun l => jsIncludes l.href "github.com") with
  | some l => ⟨"View on GitHub", l.href⟩
  | none => ⟨"Get Started", "#"⟩

/-- `extractCTA`: first action-keyword link with a non-anchor url; else a
synthetic link to the first installation-like section; else the first
GitHub link; else the fixed placeholder. -/
def extractCTA (links : List Link) (sections : List Section) : Link :=
  match links.find? (fun l =>
      hasActionKeyword l && !jsStartsWith l.href "#" && l.href != "#") with
  | some l => l
  | none =>
    if sections.any installSectionPred then
      match sections.find? installSectionPred with
      | some s => ⟨"Get Started", "#" ++ s.id⟩
      | none => ctaGithub links
    else ctaGithub links

/-! ### Secondary link curation

The JS code filters with object identity (`l !== github`,
`social.includes(l)`); pairing each filtered link with its position makes
the Lean value equality coincide with that reference equality. -/

/-- The filter of `extractSecondaryLinks`: drops the CTA href and the bare
placeholder, keeps http urls and section anchors. -/
def slPred (cta : Link) (l : Link) : Bool :=
  !(l.href == cta.href || l.href == "#") &&
  (jsStartsWith l.href "http" || jsStartsWith l.href "#")

/-- The filtered link list, tagged with positions (JS object identity). -/
def slFiltered (links : List Link) (cta : Link) : List (Nat × Link) :=
  (links.filter (slPred cta)).enum

/-- Social-platform domain test. -/
def socialPred (l : Link) : Bool :=
  jsIncludes l.href "twitter.com" || jsIncludes l.href "x.com" ||
  jsIncludes l.href "linkedin.com" || jsIncludes l.href "bluesky"

/-- The first GitHub link of the filtered list. -/
def slGithub (links : List Link) (cta : Link) : Option (Nat × Link) :=
  (slFiltered links cta).find? (fun p => jsIncludes p.2.href "github.com")

/-- The social links of the filtered list. -/
def slSocial (links : List Link) (cta : Link) : List (Nat × Link) :=
  (slFiltered links cta).filter (fun p => socialPred p.2)

/-- The remaining links: not the GitHub pick, not social (`l !== github`
and `social.includes(l)` compare object identity, i.e. the position tag). -/
def slOthers (links : List Link) (cta : Link) : List (Nat × Link) :=
  (slFiltered links cta).filter (fun p =>
    (match slGithub links cta with
     | some g => p.1 != g.1
     | none => true) && !((slSocial links cta).any (fun q => q.1 == p.1)))

/-- The result after the first two pushes: the GitHub link (when distinct
from the CTA), then up to two social links. -/
def slHead (links : List Link) (cta : Link) : List (Nat × Link) :=
  (match slGithub links cta with
   | some g => if g.2.href != cta.href then [g] else []
   | none => []) ++ (slSocial links cta).take 2

/-- The ranked candidate list before labels are resolved: one GitHub link,
then up to two social links, then other links filling up to three slots. -/
def slBase (links : List Link) (cta : Link) : List (Nat × Link) :=
  slHead links cta ++ (slOthers links cta).take (3 - (slHead links cta).length)

/-- Modelled from the spec: the platform `URL` constructor is an external
collaborator; this returns the host name of an absolute url, or `none`
when the text has no parseable `scheme://host` part (where the JS
constructor would throw). -/
def urlHostname (href : String) : Option String :=
  let rec findSep : List Char → Option (List Char)
    | [] => none
    | c :: cs =>
      if matchHere [':', '/', '/'] (c :: cs) then some ((c :: cs).drop 3)
      else findSep cs
  (findSep href.data).bind (fun rest =>
    let host := rest.takeWhile (fun c => !(c == '/' || c == ':' || c == '?' || c == '#'))
    if host.isEmpty then none else some (String.mk host))

/-- The per-link label of a curated secondary link: the original label, or
for labelless http links the url host stripped of `www.` (this is the
only place the throwing `URL` constructor is reachable), or the raw href. -/
def linkLabelFallback (l : Link) : Option String :=
  if l.label != "" then some l.label
  else if jsStartsWith l.href "http" then
    (urlHostname l.href).map (fun h => jsReplaceFirst h "www." "")
  else some l.href

/-- JS `Array.map` over a function that can throw. -/
def optionMapList {α β : Type} (f : α → Option β) : List α → Option (List β)
  | [] => some []
  | a :: l =>
    match f a, optionMapList f l with
    | some b, some r => some (b :: r)
    | _, _ => none

/-- `extractSecondaryLinks`: ranked, capped at 4, with label fallback. -/
def extractSecondaryLinks (links : List Link) (cta : Link) : Option (List Link) :=
  optionMapList
    (fun p => (linkLabelFallback p.2).map (fun lb => Link.mk lb p.2.href))
    ((slBase links cta).take 4)

/-! ### Feature extraction -/

/-- The feature-heading keywords. -/
def featureKeywords : List String :=
  ["feature", "what" ++ apos ++ "s", "why", "highlight", "benefit",
   "advantage", "capability", "key"]

/-- The bounded lookahead after a feature heading: up to four sibling
nodes, stopping early at a depth-≤2 heading. -/
def listLookahead : Nat → List MDNode → Option MDNode
  | 0, _ => none
  | _ + 1, [] => none
  | k + 1, n :: ns =>
    match n with
    | MDNode.list ch => some (MDNode.list ch)
    | MDNode.heading d _ => if d ≤ 2 then none else listLookahead k ns
    | _ => listLookahead k ns

/-- Finds the list adjacent to the first feature-keyword heading. -/
def findFeatureList : List MDNode → Option MDNode
  | [] => none
  | n :: ns =>
    match n with
    | MDNode.heading _ ch =>
      let tl := jsToLower (textOfList ch)
      if featureKeywords.any (fun k => jsIncludes tl k) || jsIncludes tl "✨" then
        listLookahead 4 ns
      else findFeatureList ns
    | _ => findFeatureList ns

/-- The leading pictographic ranges captured as a feature icon. -/
def emojiRange (c : Char) : Bool :=
  (0x1F300 ≤ c.toNat ∧ c.toNat ≤ 0x1F9FF) ||
  (0x2600 ≤ c.toNat ∧ c.toNat ≤ 0x26FF) ||
  (0x2700 ≤ c.toNat ∧ c.toNat ≤ 0x27BF)

/-- The JS replace stripping a leading list marker and its whitespace. -/
def stripMarker (cs : List Char) : List Char :=
  match cs with
  | c :: rest =>
    if (c == '-' || c == '*' || c == '+') &&
        (match rest with
         | r :: _ => isSpaceJS r
         | [] => false) then
      rest.dropWhile isSpaceJS
    else cs
  | [] => cs

/-- The dash characters of the title/description separator class. -/
def dashClass (c : Char) : Bool :=
  c == '-' || c == Char.ofNat 0x2013 || c == Char.ofNat 0x2014

/-- The match of `/^(.+?)\s*[-–—]\s*(.+)$/`: splits at the first dash that
has at least one character before its leading space run and at least one
character after it. -/
def dashScan : List Char → List Char → Option (List Char × List Char)
  | _, [] => none
  | before, c :: rest =>
    if dashClass c ∧ before ≠ [] then
      let stripped := (before.reverse.dropWhile isSpaceJS).reverse
      let left := if stripped.isEmpty then before.take 1 else stripped
      let r := rest.dropWhile isSpaceJS
      if r.isEmpty then
        match rest.reverse with
        | x :: _ => some (left, [x])
        | [] => dashScan (before ++ [c]) rest
      else some (left, r)
    else dashScan (before ++ [c]) rest

/-- The JS replace stripping a leading and a trailing bold marker pair. -/
def stripBoldWrap (s : String) : String :=
  let l := s.data
  let l := if matchHere ['*', '*'] l then l.drop 2 else l
  let l := if matchHere ['*', '*'] l.reverse then (l.reverse.drop 2).reverse else l
  ⟨l⟩

/-- JS `split(/:\s+/)`. -/
def colonSplitAux : Nat → List Char → List Char → List String
  | 0, _, cur => [String.mk cur]
  | _ + 1, [], cur => [String.mk cur]
  | f + 1, c :: rest, cur =>
    if c == ':' &&
        (match rest with
         | r :: _ => isSpaceJS r
         | [] => false) then
      String.mk cur :: colonSplitAux f (rest.dropWhile isSpaceJS) []
    else colonSplitAux f rest (cur ++ [c])

/-- JS `split(/:\s+/)` on a string. -/
def colonSplit (s : String) : List String :=
  colonSplitAux (s.data.length + 1) s.data []

/-- Joins parts with a colon and a space between them. -/
def joinColonSpace : List String → String
  | [] => ""
  | s :: rest => rest.foldl (fun a b => a ++ ": " ++ b) s

/-- Turns the text of one feature list item into a feature card: icon capture,
marker stripping, then dash- or colon-splitting with bold-stripping. -/
def featureOfItemText (text : String) : Feature :=
  let emo :=
    match text.data with
    | c :: _ => if emojiRange c then some c else none
    | [] => none
  let icon := emo.map String.singleton
  let clean1 :=
    match emo with
    | some _ => jsTrim (String.mk (text.data.drop 1))
    | none => text
  let clean := jsTrim (String.mk (stripMarker clean1.data))
  match dashScan [] clean.data with
  | some (l, r) =>
    ⟨jsTrim (stripBoldWrap (String.mk l)), some (jsTrim (stripBoldWrap (String.mk r))), icon⟩
  | none =>
    let parts := colonSplit clean
    let title :=
      match parts with
      | t :: _ => if t = "" then strTake clean 60 else t
      | [] => strTake clean 60
    let desc := jsTrim (joinColonSpace (parts.drop 1))
    let descO := if desc = "" then none else some (jsTrim (stripBoldWrap desc))
    ⟨jsTrim (stripBoldWrap title), descO, icon⟩

/-- `extractFeatures`: the items of the feature-section list, or as a fallback
up to five bold spans inside paragraphs; capped at six. -/
def extractFeatures (ast : List MDNode) : List Feature :=
  let fromList :=
    match findFeatureList ast with
    | some fl =>
      (((preorder fl).filter isListItemNode).filter
          (fun it => jsTrim (textOf it) != "")).map
        (fun it => featureOfItemText (textOf it))
    | none => []
  let feats :=
    if fromList.isEmpty then
      (((((preorderList ast).filter isParagraphNode).flatMap
            (fun p => (preorder p).filter isStrongNode)).map
          (fun sn => jsTrim (textOf sn))).filter (fun t => t != "")).take 5
        |>.map (fun t => Feature.mk t none none)
    else fromList
  feats.take 6

/-! ### Badge extraction -/

/-- Alt-text keywords identifying badge images. -/
def badgeAltKw (alt : String) : Bool :=
  ["license", "version", "build", "status", "badge"].any (fun k => jsIncludes alt k)

/-- Label/url keywords identifying badge-like links. -/
def badgeLinkKw (l : Link) : Bool :=
  let lab := jsToLower l.label
  let hr := jsToLower l.href
  jsIncludes lab "license" || jsIncludes lab "version" || jsIncludes lab "npm" ||
  jsIncludes lab "badge" || jsIncludes hr "shields.io" || jsIncludes hr "badge"

/-- Technology keywords of the tech-stack-line badge heuristic. -/
def badgeTechKeywords : List String :=
  ["next", "react", "vue", "angular", "typescript", "javascript", "python",
   "node", "tailwind", "css", "html", "license", "mit", "apache"]

/-- A word starting with an upper-case letter followed by a lower-case
letter (JS `/^[A-Z][a-z]/`). -/
def capLowStart (w : String) : Bool :=
  match w.data with
  | a :: b :: _ => (65 ≤ a.toNat ∧ a.toNat ≤ 90) && (97 ≤ b.toNat ∧ b.toNat ≤ 122)
  | _ => false

/-- ASCII letter test. -/
def isAlphaCh (c : Char) : Bool :=
  (65 ≤ c.toNat ∧ c.toNat ≤ 90) || (97 ≤ c.toNat ∧ c.toNat ≤ 122)

/-- JS `\w` word-character test. -/
def isWordCh (c : Char) : Bool :=
  isAlphaCh c || (48 ≤ c.toNat ∧ c.toNat ≤ 57) || c == '_'

/-- Consumes `[A-Z][a-zA-Z]+` at the head, returning the rest. -/
def capWordRest (cs : List Char) : Option (List Char) :=
  match cs with
  | c :: rest =>
    if 65 ≤ c.toNat ∧ c.toNat ≤ 90 then
      let al := rest.takeWhile isAlphaCh
      if al.isEmpty then none else some (rest.dropWhile isAlphaCh)
    else none
  | [] => none

/-- A word boundary holds at this position (next char not a word char). -/
def boundaryOK : List Char → Bool
  | [] => true
  | c :: _ => !isWordCh c

/-- Consumes `(?:\s+[A-Z][a-zA-Z]+)*` greedily with backtracking until the
trailing word boundary holds. -/
def seqRest : Nat → List Char → Option (List Char)
  | 0, cs => if boundaryOK cs then some cs else none
  | f + 1, cs =>
    let sp := cs.takeWhile isSpaceJS
    let ext : Option (List Char) :=
      if sp.isEmpty then none
      else
        match capWordRest (cs.dropWhile isSpaceJS) with
        | some r2 => seqRest f r2
        | none => none
    match ext with
    | some x => some x
    | none => if boundaryOK cs then some cs else none

/-- Counts the matches of `/\b([A-Z][a-zA-Z]+(?:\s+[A-Z][a-zA-Z]+)*)\b/g`. -/
def techWordsCount : Nat → List Char → Bool → Nat
  | 0, _, _ => 0
  | _ + 1, [], _ => 0
  | f + 1, c :: rest, prevW =>
    if !prevW then
      match capWordRest (c :: rest) with
      | some r =>
        match seqRest f r with
        | some r2 => 1 + techWordsCount f r2 true
        | none => techWordsCount f rest (isWordCh c)
      | none => techWordsCount f rest (isWordCh c)
    else techWordsCount f rest (isWordCh c)

/-- State of the badge accumulation: collected badges and the seen-label
set (lower-cased labels). -/
abbrev BadgeAcc := List Badge × List String

/-- `extractBadges`: badge-keyword images, then badge-like links, then (only
when fewer than two badges were found) capitalized tech words from short
paragraphs; capped at five, deduplicated by lower-cased label. -/
def extractBadges (ast : List MDNode) (links : List Link) : List Badge :=
  let step1 : BadgeAcc :=
    ((preorderList ast).filter isImageNode).foldl
      (fun (acc : BadgeAcc) n =>
        match n with
        | MDNode.image url alt =>
          if alt != "" && badgeAltKw (jsToLower alt) then
            if decide (jsToLower alt ∈ acc.2) then acc
            else (acc.1 ++ [⟨alt, if url != "" then some url else none⟩],
                  acc.2 ++ [jsToLower alt])
          else acc
        | _ => acc) ([], [])
  let step2 : BadgeAcc :=
    links.foldl
      (fun (acc : BadgeAcc) l =>
        if badgeLinkKw l && !(decide (jsToLower l.label ∈ acc.2)) then
          (acc.1 ++ [⟨l.label, some l.href⟩], acc.2 ++ [jsToLower l.label])
        else acc) step1
  let step3 : BadgeAcc :=
    if step2.1.length < 2 then
      ((preorderList ast).filter isParagraphNode).foldl
        (fun (acc : BadgeAcc) p =>
          let text := textOf p
          if text.length < 100 ∧ (jsSplitWS text).length ≤ 8 then
            let twc := techWordsCount (text.data.length + 1) text.data false
            if 3 ≤ twc ∧ twc ≤ 6 then
              let words := (jsSplitWS text).filter (fun w =>
                decide (2 < w.length) && capLowStart w && !(jsIncludes w "."))
              let validTechs := words.filter (fun w =>
                badgeTechKeywords.any (fun k => jsIncludes (jsToLower w) k) ||
                decide (3 < w.length))
              if 2 ≤ validTechs.length ∧ validTechs.length ≤ 5 then
                (validTechs.take 4).foldl
                  (fun (a : BadgeAcc) w =>
                    if decide (jsToLower w ∈ a.2) then a
                    else (a.1 ++ [⟨w, none⟩], a.2 ++ [jsToLower w])) acc
              else acc
            else acc
          else acc) step2
    else step2
  step3.1.take 5

/-! ### Hero image selection -/

/-- The alt-text keywords of the hero image selector. -/
def heroKeywords : List String :=
  ["screenshot", "demo", "preview", "logo", "hero", "banner"]

/-- The visitor loop of `extractHeroImage`: state is (found-H1 flag, chosen
image).  A depth-1 heading sets the flag; on an image seen with the flag
set and no image chosen yet, the keyword branch and the fallback branch
both choose this image; once an image is chosen it is never replaced. -/
def heroLoop : List MDNode → Bool → Option (String × String) → Option (String × String)
  | [], _, acc => acc
  | MDNode.heading d _ :: ns, f, acc =>
    if d = 1 then heroLoop ns true acc else heroLoop ns f acc
  | MDNode.image url alt :: ns, f, acc =>
    if f = true ∧ acc = none then
      heroLoop ns f
        (if heroKeywords.any (fun k => jsIncludes (jsToLower alt) k) then some (url, alt)
         else if acc = none then some (url, alt)
         else acc)
    else heroLoop ns f acc
  | _ :: ns, f, acc => heroLoop ns f acc

/-- `extractHeroImage`: the first image after the first depth-1 heading,
returned when its url is non-empty, with an alt-text default. -/
def extractHeroImage (ast : List MDNode) : Option Hero :=
  match heroLoop (preorderList ast) false none with
  | some (url, alt) =>
    if url != "" then some ⟨url, if alt == "" then "Hero image" else alt⟩
    else none
  | none => none

/-! ### Stat extraction -/

/-- ASCII digit test (JS `\d`). -/
def isDigitCh (c : Char) : Bool :=
  48 ≤ c.toNat ∧ c.toNat ≤ 57

/-- The magnitude suffix class `[kKmMbB]`. -/
def isKMB (c : Char) : Bool :=
  c == 'k' || c == 'K' || c == 'm' || c == 'M' || c == 'b' || c == 'B'

/-- The `\s+(\w+)` tail of the stat pattern: at least one whitespace then
at least one word character; returns the captured word and the rest. -/
def statTail (cs : List Char) : Option (String × List Char) :=
  let sp := cs.takeWhile isSpaceJS
  if sp.isEmpty then none
  else
    let r := cs.dropWhile isSpaceJS
    let w := r.takeWhile isWordCh
    if w.isEmpty then none else some (String.mk w, r.dropWhile isWordCh)

/-- One attempt of `/(\d+[kKmMbB]?\+?)\s+(\w+)/` at the current position:
returns (value capture, label capture, rest after the match). -/
def matchStatAt (cs : List Char) : Option (String × String × List Char) :=
  let d := cs.takeWhile isDigitCh
  if d.isEmpty then none
  else
    let r1 := cs.dropWhile isDigitCh
    match r1 with
    | c :: r2 =>
      if isKMB c then
        let pr :=
          match r2 with
          | '+' :: r3 => ("+", r3)
          | _ => ("", r2)
        match statTail pr.2 with
        | some (lab, rest) => some (String.mk d ++ String.singleton c ++ pr.1, lab, rest)
        | none => none
      else
        let pr :=
          match r1 with
          | '+' :: r3 => ("+", r3)
          | _ => ("", r1)
        match statTail pr.2 with
        | some (lab, rest) => some (String.mk d ++ pr.1, lab, rest)
        | none => none
    | [] => none

/-- The `matchAll` scan of the stat pattern over one text. -/
def statScan : Nat → List Char → List Stat
  | 0, _ => []
  | _ + 1, [] => []
  | f + 1, c :: cs =>
    match matchStatAt (c :: cs) with
    | some (v, lab, rest) => ⟨lab, v⟩ :: statScan f rest
    | none => statScan f cs

/-- All `{value, label}` pairs the stat pattern finds in one string. -/
def statMatchesStr (s : String) : List Stat :=
  statScan s.data.length s.data

/-- One guarded push loop: appends matches while fewer than 4 stats are
collected. -/
def cappedPush (acc : List Stat) (ms : List Stat) : List Stat :=
  ms.foldl (fun a m => if a.length < 4 then a ++ [m] else a) acc

/-- The accumulated stat pairs: the paragraph pass feeds the list-item
pass, both under the global cap of 4. -/
def statsAccum (ast : List MDNode) : List Stat :=
  ((preorderList ast).filter isListItemNode).foldl
    (fun a n => cappedPush a (statMatchesStr (textOf n)))
    (((preorderList ast).filter isParagraphNode).foldl
      (fun a n => cappedPush a (statMatchesStr (textOf n))) [])

/-- `extractStats`: scans every paragraph, then every list item, collecting
at most 4 pairs overall; `none` when nothing matched. -/
def extractStats (ast : List MDNode) : Option (List Stat) :=
  if 0 < (statsAccum ast).length then some ((statsAccum ast).take 4) else none

/-! ### Tech-stack detection -/

/-- The fixed technology-name allowlist. -/
def techStackKeywords : List String :=
  ["react", "vue", "angular", "next", "typescript", "javascript", "python",
   "node", "rust", "go", "java", "php", "ruby", "swift", "kotlin", "docker",
   "kubernetes", "aws", "gcp", "azure", "postgresql", "mysql", "mongodb",
   "redis", "tailwind", "bootstrap", "sass", "webpack", "vite"]

/-- `extractTechStack`: allowlist keywords contained in any lower-cased
paragraph text, plus the language tag of every code block, deduplicated and
capped at 8. -/
def extractTechStack (ast : List MDNode) : Option (List String) :=
  let t1 :=
    ((preorderList ast).filter isParagraphNode).foldl
      (fun acc p =>
        let tl := jsToLower (textOf p)
        techStackKeywords.foldl
          (fun a k => if jsIncludes tl k && !(decide (k ∈ a)) then a ++ [k] else a)
          acc) []
  let t2 :=
    ((preorderList ast).filter isCodeNode).foldl
      (fun acc n =>
        match n with
        | MDNode.code lang _ =>
          if lang != "" && !(decide (lang ∈ acc)) then acc ++ [lang] else acc
        | _ => acc) t1
  if 0 < t2.length then some (t2.take 8) else none

/-! ### Testimonial extraction -/

/-- JS `split(/[-–—]\s*|\n/)`. -/
def splitDashNLAux : Nat → List Char → List Char → List String
  | 0, _, cur => [String.mk cur]
  | _ + 1, [], cur => [String.mk cur]
  | f + 1, c :: rest, cur =>
    if dashClass c then String.mk cur :: splitDashNLAux f (rest.dropWhile isSpaceJS) []
    else if c == '\n' then String.mk cur :: splitDashNLAux f rest []
    else splitDashNLAux f rest (cur ++ [c])

/-- JS `split(/[-–—]\s*|\n/)` on a string. -/
def splitDashNL (s : String) : List String :=
  splitDashNLAux (s.data.length + 1) s.data []

/-- `extractTestimonials`: block quotes of 21–299 characters, split into
quote and optional author, capped at 3; `none` when nothing matched. -/
def extractTestimonials (ast : List MDNode) : Option (List Testimonial) :=
  let ts :=
    ((preorderList ast).filter isBlockquoteNode).foldl
      (fun acc b =>
        let text := textOf b
        if 20 < text.length ∧ text.length < 300 then
          let parts := splitDashNL text
          let q0 := jsTrim ((parts.head?).getD "")
          let quote := if q0 = "" then jsTrim text else q0
          let authorO :=
            match (parts.get? 1).map jsTrim with
            | some a => if a = "" then none else some a
            | none => none
          if quote != "" then acc ++ [⟨quote, authorO⟩] else acc
        else acc) []
  if 0 < ts.length then some (ts.take 3) else none

/-! ### Section ordering -/

/-- The fixed topic priority list of the section orderer. -/
def priorityOrder : List String :=
  ["how-it-works", "how it works", "quick-start", "quick start",
   "installation", "install", "getting-started", "getting started",
   "usage", "examples", "demo", "configuration", "api", "documentation",
   "tech-stack", "tech stack", "project-structure", "project structure",
   "idea-categories", "idea categories", "contributing", "roadmap", "faq",
   "troubleshooting", "changelog", "acknowledgments", "license", "connect"]

/-- The id-keyword match of the orderer: equal, containing, or contained. -/
def idKwMatch (id kw : String) : Bool :=
  id == kw || jsIncludes id kw || jsIncludes kw id

/-- JS `Map.set`: updates the value in place when the key exists, appends
the entry otherwise (keys keep first-insertion order). -/
def mapSet (m : List (String × Section)) (k : String) (v : Section) : List (String × Section) :=
  if m.any (fun p => p.1 == k) then
    m.map (fun p => if p.1 == k then (k, v) else p)
  else m ++ [(k, v)]

/-- The `Map` built from the section list, keyed by lower-cased id. -/
def buildSectionMap (secs : List Section) : List (String × Section) :=
  secs.foldl (fun m s => mapSet m (jsToLower s.id) s) []

/-- The priority placement loop over the map entries: for each keyword,
the first unplaced matching entry is appended and its key recorded. -/
def prioPlace : List String → List (String × Section) → List Section × List String → List Section × List String
  | [], _, acc => acc
  | kw :: kws, entries, (ordered, added) =>
    match entries.find? (fun p => !(decide (p.1 ∈ added)) && idKwMatch p.1 kw) with
    | some p => prioPlace kws entries (ordered ++ [p.2], added ++ [p.1])
    | none => prioPlace kws entries (ordered, added)

/-- `orderSectionsIntelligently`: priority-placed sections first, then the
sections whose lower-cased id was never placed, in document order. -/
def orderSectionsIntelligently (secs : List Section) : List Section :=
  (prioPlace priorityOrder (buildSectionMap secs) ([], [])).1 ++
    secs.filter (fun s =>
      !(decide (jsToLower s.id ∈ (prioPlace priorityOrder (buildSectionMap secs) ([], [])).2)))

/-! ### The assembler -/

/-- `parseReadme` from the parsed tree onward (the markdown-to-tree parse
itself is the external collaborator): runs every extractor and assembles
the result record; `none` models the one reachable JS exception (the
`URL` constructor inside the secondary-link label fallback). -/
def parseReadme (ast : List MDNode) : Option PageModel :=
  match extractSecondaryLinks (extractLinks ast)
      (extractCTA (extractLinks ast) (extractSections ast)) with
  | none => none
  | some secondaryLinks =>
    some
      { title := extractTitle ast
        tagline := extractTagline ast
        cta := extractCTA (extractLinks ast) (extractSections ast)
        secondaryLinks := secondaryLinks
        features := extractFeatures ast
        sections := orderSectionsIntelligently (extractSections ast)
        badges := extractBadges ast (extractLinks ast)
        heroImage := extractHeroImage ast
        stats := extractStats ast
        techStack := extractTechStack ast
        testimonials := extractTestimonials ast }

/-! ## Specification-side definitions

These definitions restate, in the words of the specification, the
behaviours the claims describe; the theorems below compare them with the
source-derived definitions. -/

/-- The url and alt text of an image node. -/
def imgData : MDNode → String × String
  | MDNode.image u a => (u, a)
  | _ => ("", "")

/-- Stated from the spec: the first image node encountered (in visit
order) after the first depth-1 heading, with its url and alt text. -/
def firstImageAfterH1 (ast : List MDNode) : Option (String × String) :=
  match (preorderList ast).dropWhile (fun n => !isH1node n) with
  | [] => none
  | _ :: rest => (rest.find? isImageNode).map imgData

/-- Stated from the spec: for each keyword in priority order, the first
not-yet-placed section (of the section list itself) whose id matches is
appended and its id recorded. -/
def claimPlace : List String → List Section → List Section × List String → List Section × List String
  | [], _, acc => acc
  | kw :: kws, secs, (ordered, placed) =>
    match secs.find? (fun s => !(decide (s.id ∈ placed)) && idKwMatch s.id kw) with
    | some s => claimPlace kws secs (ordered ++ [s], placed ++ [s.id])
    | none => claimPlace kws secs (ordered, placed)

/-- Stated from the spec: priority-placed sections first, then all
sections never placed by any keyword, in original document order. -/
def claimOrder (secs : List Section) : List Section :=
  (claimPlace priorityOrder secs ([], [])).1 ++
    secs.filter (fun s => !(decide (s.id ∈ (claimPlace priorityOrder secs ([], [])).2)))

/-- Stated from the spec: all stat-pattern matches, paragraph pass first
(every paragraph in visit order), then the list-item pass. -/
def allStatMatches (ast : List MDNode) : List Stat :=
  (((preorderList ast).filter isParagraphNode).map (fun n => statMatchesStr (textOf n))).flatten ++
  (((preorderList ast).filter isListItemNode).map (fun n => statMatchesStr (textOf n))).flatten

/-- An optional collection that, when present, is non-empty. -/
def optNonempty {α : Type} : Option (List α) → Prop
  | some l => l ≠ []
  | none => True

/-! ## Concrete input documents used by witnesses and counterexamples -/

/-- The §8 end-to-end example tree:
`# Foo`, `Does bar.`, `## Features` with one bold-dash list item,
`## Installation` with a fenced bash block. -/
def tree8 : List MDNode :=
  [MDNode.heading 1 [MDNode.text "Foo"],
   MDNode.paragraph [MDNode.text "Does bar."],
   MDNode.heading 2 [MDNode.text "Features"],
   MDNode.list [MDNode.listItem [MDNode.paragraph
     [MDNode.strong [MDNode.text "Fast"], MDNode.text " - very fast"]]],
   MDNode.heading 2 [MDNode.text "Installation"],
   MDNode.code "bash" "npm i foo"]

/-- A document with two distinct `## Zebra` sections: both headings
slugify to the id `zebra`, which matches no priority keyword. -/
def dupIdTree : List MDNode :=
  [MDNode.heading 2 [MDNode.text "Zebra"],
   MDNode.paragraph [MDNode.text "a"],
   MDNode.heading 2 [MDNode.text "Zebra"],
   MDNode.paragraph [MDNode.text "b"]]

/-- Two distinct sections sharing the id `faq`. -/
def dupFaqSecs : List Section :=
  [⟨"faq", "FAQ", "x"⟩, ⟨"faq", "FAQ 2", "y"⟩]

/-- The ordering example of the spec: ids license, installation, faq in
document order. -/
def orderExSecs : List Section :=
  [⟨"license", "License", "x"⟩, ⟨"installation", "Install", "y"⟩, ⟨"faq", "FAQ", "z"⟩]

/-- A document whose only stat text sits inside a list item (hence inside
the paragraph of that item as well). -/
def listStatTree : List MDNode :=
  [MDNode.list [MDNode.listItem [MDNode.paragraph [MDNode.text "3 stars"]]]]

/-- A document with an image but no depth-1 heading. -/
def noH1ImgTree : List MDNode :=
  [MDNode.paragraph [MDNode.image "https://img.example.org/shot.png" "logo"]]

/-- A one-paragraph document containing one stat match. -/
def statParaTree : List MDNode :=
  [MDNode.paragraph [MDNode.text "100 stars and counting"]]

/-- A one-section document with a distinct slug. -/
def alphaTree : List MDNode :=
  [MDNode.heading 2 [MDNode.text "Alpha"], MDNode.paragraph [MDNode.text "x"]]

/-- The result record of `parseReadme statParaTree`. -/
def statParaModel : PageModel :=
  { title := "100 stars and counting"
    tagline := "100 stars and counting"
    cta := ⟨"Get Started", "#"⟩
    secondaryLinks := []
    features := []
    sections := []
    badges := []
    heroImage := none
    stats := some [⟨"stars", "100"⟩]
    techStack := none
    testimonials := none }

/-- The result record of `parseReadme alphaTree`. -/
def alphaModel : PageModel :=
  { title := "x"
    tagline := "x"
    cta := ⟨"Get Started", "#"⟩
    secondaryLinks := []
    features := []
    sections := [⟨"alpha", "Alpha", "x"⟩]
    badges := []
    heroImage := none
    stats := none
    techStack := none
    testimonials := none }

/-! ## Helper lemmas -/

theorem strTake_length (s : String) (n : Nat) : (strTake s n).length = min n s.length := by
  show (s.data.take n).length = min n s.data.length
  exact List.length_take n s.data

theorem strLength_append (a b : String) : (a ++ b).length = a.length + b.length := by
  show (a.data ++ b.data).length = a.data.length + b.data.length
  exact List.length_append a.data b.data

theorem string_ne_empty_of_length {s : String} (h : 0 < s.length) : s ≠ "" := by
  intro he
  rw [he] at h
  simp [String.length] at h

/-! ## C5: tagline length bound -/

theorem taglineTrunc_length (u : String) :
    (taglineTrunc u).length ≤ 160 ∧ (u ≠ "" → taglineTrunc u ≠ "") := by
  unfold taglineTrunc
  by_cases h : 160 < u.length
  · rw [if_pos h]
    have hlen : (strTake u 157 ++ "...").length = 160 := by
      rw [strLength_append, strTake_length]
      have : min 157 u.length = 157 := by omega
      rw [this]
      decide
    exact ⟨le_of_eq hlen,
      fun _ => string_ne_empty_of_length (by omega)⟩
  · rw [if_neg h]
    exact ⟨by omega, fun hu => hu⟩

/-- C5: for every input, the tagline is at most 160 characters long and
never empty — a longer selected tagline is truncated to 157 characters
plus an ellipsis, and the placeholder default is itself short. -/
theorem c5_tagline_bounds (ast : List MDNode) :
    (extractTagline ast).length ≤ 160 ∧ extractTagline ast ≠ "" := by
  unfold extractTagline
  by_cases he : taglineTrunc (taglineCandidate ast) = ""
  · rw [if_pos he]
    exact ⟨by decide, by decide⟩
  · rw [if_neg he]
    exact ⟨(taglineTrunc_length (taglineCandidate ast)).1, he⟩

/-! ## C1: CTA resolution to the installation anchor -/

/-- C1: when no link carries an action keyword together with a
non-placeholder url, and an installation/quick-start-like section exists,
the CTA is the synthetic `Get Started` link to the anchor of the first
such section; in particular the §8 end-to-end input yields
`{label: "Get Started", href: "#installation"}`. -/
theorem c1_cta_install_anchor (links : List Link) (sections : List Section) (s : Section)
    (hk : ∀ l ∈ links, hasActionKeyword l = true → jsStartsWith l.href "#" = true)
    (hs : sections.find? installSectionPred = some s) :
    extractCTA links sections = ⟨"Get Started", "#" ++ s.id⟩ ∧
    (parseReadme tree8).map PageModel.cta = some ⟨"Get Started", "#installation"⟩ := by
  refine ⟨?_, by decide⟩
  unfold extractCTA
  have h1 : links.find?
      (fun l => hasActionKeyword l && !jsStartsWith l.href "#" && l.href != "#") = none := by
    rw [List.find?_eq_none]
    intro l hl
    simp only [Bool.and_eq_true, Bool.not_eq_true', not_and]
    intro hact _
    have htrue := hk l hl hact.1
    rw [htrue] at hact
    exact absurd hact.2 (by decide)
  rw [h1]
  have hany : sections.any installSectionPred = true :=
    List.any_eq_true.mpr ⟨s, List.mem_of_find?_eq_some hs, List.find?_some hs⟩
  simp only [hany, if_true, hs]

/-- Witness for C1 at the §8 input: the link list is empty (so no action
keyword matches) and the CTA resolves to the installation anchor. -/
theorem c1_witness :
    extractLinks tree8 = [] ∧
    extractCTA (extractLinks tree8) (extractSections tree8) =
      ⟨"Get Started", "#installation"⟩ :=
  ⟨by decide,
   (c1_cta_install_anchor (extractLinks tree8) (extractSections tree8)
     ⟨"installation", "Install", "```bash\nnpm i foo\n```"⟩
     (by decide) (by decide)).1⟩

/-! ## C2: uniqueness of section ids -/

/-- C2 counterexample: two `## Zebra` headings slugify to the same id and
both survive into the final result, so `sections[].id` values are not
unique within one result. -/
theorem c2_counterexample :
    (parseReadme dupIdTree).map (fun m => m.sections.map Section.id) =
      some ["zebra", "zebra"] ∧
    ¬ (["zebra", "zebra"] : List String).Nodup :=
  ⟨by decide, by decide⟩

/-! ## C3: optional collections -/

/-- C3 counterexample: the badge extractor always returns a collection
(never `undefined`), so on a document with no badges the result record
carries `badges` as a present-but-empty collection. -/
theorem c3_counterexample :
    (parseReadme []).map PageModel.badges = some [] := by decide

/-! ## C4: section ordering -/

/-- C4 counterexample: with two distinct sections sharing the id `faq`,
the map of the orderer keeps only the last one, so the first matching section
in document order is not the one appended (it disappears entirely). -/
theorem c4_counterexample :
    orderSectionsIntelligently dupFaqSecs = [⟨"faq", "FAQ 2", "y"⟩] ∧
    (⟨"faq", "FAQ", "x"⟩ : Section) ∉ orderSectionsIntelligently dupFaqSecs :=
  ⟨by decide, by decide⟩

/-! ## C8: stat collection -/

/-- C8 counterexample: the text `3 stars` occurs once, inside a list item
(and hence inside the paragraph of that item); the paragraph pass and the
list-item pass each collect it, so one text occurrence yields two pairs. -/
theorem c8_counterexample :
    extractStats listStatTree = some [⟨"stars", "3"⟩, ⟨"stars", "3"⟩] := by decide

/-! ## C7 and C10: hero image selection -/

theorem heroLoop_keep (l : List MDNode) (img : String × String) :
    heroLoop l true (some img) = some img := by
  induction l with
  | nil => rfl
  | cons n ns ih =>
    cases n with
    | heading d ch =>
      show (if d = 1 then heroLoop ns true (some img) else heroLoop ns true (some img)) =
        some img
      rw [ite_self]
      exact ih
    | image url alt => exact ih
    | text v => exact ih
    | paragraph ch => exact ih
    | link u ch => exact ih
    | list ch => exact ih
    | listItem ch => exact ih
    | code lg v => exact ih
    | blockquote ch => exact ih
    | strong ch => exact ih
    | emphasis ch => exact ih

theorem heroLoop_found (l : List MDNode) :
    heroLoop l true none = (l.find? isImageNode).map imgData := by
  induction l with
  | nil => rfl
  | cons n ns ih =>
    cases n with
    | image url alt =>
      rw [List.find?_cons_of_pos _ (by simp [isImageNode])]
      show heroLoop ns true
          (if heroKeywords.any (fun k => jsIncludes (jsToLower alt) k) then some (url, alt)
           else if (none : Option (String × String)) = none then some (url, alt) else none) =
        Option.map imgData (some (MDNode.image url alt))
      rw [if_pos rfl, ite_self, heroLoop_keep]
      rfl
    | heading d ch =>
      rw [List.find?_cons_of_neg _ (by simp [isImageNode])]
      show (if d = 1 then heroLoop ns true none else heroLoop ns true none) = _
      rw [ite_self]
      exact ih
    | text v =>
      rw [List.find?_cons_of_neg _ (by simp [isImageNode])]; exact ih
    | paragraph ch =>
      rw [List.find?_cons_of_neg _ (by simp [isImageNode])]; exact ih
    | link u ch =>
      rw [List.find?_cons_of_neg _ (by simp [isImageNode])]; exact ih
    | list ch =>
      rw [List.find?_cons_of_neg _ (by simp [isImageNode])]; exact ih
    | listItem ch =>
      rw [List.find?_cons_of_neg _ (by simp [isImageNode])]; exact ih
    | code lg v =>
      rw [List.find?_cons_of_neg _ (by simp [isImageNode])]; exact ih
    | blockquote ch =>
      rw [List.find?_cons_of_neg _ (by simp [isImageNode])]; exact ih
    | strong ch =>
      rw [List.find?_cons_of_neg _ (by simp [isImageNode])]; exact ih
    | emphasis ch =>
      rw [List.find?_cons_of_neg _ (by simp [isImageNode])]; exact ih

theorem heroLoop_seek_nil (l : List MDNode)
    (h : l.dropWhile (fun n => !isH1node n) = []) :
    heroLoop l false none = none := by
  induction l with
  | nil => rfl
  | cons n ns ih =>
    rw [List.dropWhile_cons] at h
    cases n with
    | heading d ch =>
      by_cases hd : d = 1
      · rw [if_neg (by simp [isH1node, hd])] at h
        cases h
      · rw [if_pos (by simp [isH1node, hd])] at h
        show (if d = 1 then heroLoop ns true none else heroLoop ns false none) = none
        rw [if_neg hd]
        exact ih h
    | image url alt =>
      rw [if_pos (by simp [isH1node])] at h
      exact ih h
    | text v =>
      rw [if_pos (by simp [isH1node])] at h
      exact ih h
    | paragraph ch =>
      rw [if_pos (by simp [isH1node])] at h
      exact ih h
    | link u ch =>
      rw [if_pos (by simp [isH1node])] at h
      exact ih h
    | list ch =>
      rw [if_pos (by simp [isH1node])] at h
      exact ih h
    | listItem ch =>
      rw [if_pos (by simp [isH1node])] at h
      exact ih h
    | code lg v =>
      rw [if_pos (by simp [isH1node])] at h
      exact ih h
    | blockquote ch =>
      rw [if_pos (by simp [isH1node])] at h
      exact ih h
    | strong ch =>
      rw [if_pos (by simp [isH1node])] at h
      exact ih h
    | emphasis ch =>
      rw [if_pos (by simp [isH1node])] at h
      exact ih h

theorem heroLoop_seek_cons (l : List MDNode) (n : MDNode) (rest : List MDNode)
    (h : l.dropWhile (fun m => !isH1node m) = n :: rest) :
    heroLoop l false none = heroLoop rest true none := by
  induction l with
  | nil => cases h
  | cons a as ih =>
    rw [List.dropWhile_cons] at h
    cases a with
    | heading d ch =>
      by_cases hd : d = 1
      · rw [if_neg (by simp [isH1node, hd])] at h
        injection h with h1 h2
        subst h2
        show (if d = 1 then heroLoop as true none else heroLoop as false none) =
          heroLoop as true none
        rw [if_pos hd]
      · rw [if_pos (by simp [isH1node, hd])] at h
        show (if d = 1 then heroLoop as true none else heroLoop as false none) =
          heroLoop rest true none
        rw [if_neg hd]
        exact ih h
    | image url alt =>
      rw [if_pos (by simp [isH1node])] at h
      exact ih h
    | text v =>
      rw [if_pos (by simp [isH1node])] at h
      exact ih h
    | paragraph ch =>
      rw [if_pos (by simp [isH1node])] at h
      exact ih h
    | link u ch =>
      rw [if_pos (by simp [isH1node])] at h
      exact ih h
    | list ch =>
      rw [if_pos (by simp [isH1node])] at h
      exact ih h
    | listItem ch =>
      rw [if_pos (by simp [isH1node])] at h
      exact ih h
    | code lg v =>
      rw [if_pos (by simp [isH1node])] at h
      exact ih h
    | blockquote ch =>
      rw [if_pos (by simp [isH1node])] at h
      exact ih h
    | strong ch =>
      rw [if_pos (by simp [isH1node])] at h
      exact ih h
    | emphasis ch =>
      rw [if_pos (by simp [isH1node])] at h
      exact ih h

/-- C7: the selected hero image is exactly the first image node
encountered (in visit order) after the first depth-1 heading — an early
image whose alt text matches no keyword is never skipped in favour of a
later keyword-matching image. -/
theorem c7_hero_first_image (ast : List MDNode) :
    extractHeroImage ast =
      (match firstImageAfterH1 ast with
       | some (u, a) =>
         if u != "" then some ⟨u, if a == "" then "Hero image" else a⟩ else none
       | none => none) := by
  unfold extractHeroImage firstImageAfterH1
  cases hdw : (preorderList ast).dropWhile (fun n => !isH1node n) with
  | nil => rw [heroLoop_seek_nil _ hdw]
  | cons n rest =>
    rw [heroLoop_seek_cons _ n rest hdw, heroLoop_found]

theorem heroLoop_no_h1 (l : List MDNode) (h : ∀ n ∈ l, isH1node n = false) :
    heroLoop l false none = none := by
  apply heroLoop_seek_nil
  induction l with
  | nil => rfl
  | cons n ns ih =>
    rw [List.dropWhile_cons, if_pos (by simp [h n (List.mem_cons_self n ns)])]
    exact ih (fun m hm => h m (List.mem_cons_of_mem n hm))

/-- C10: a document without any depth-1 heading yields no hero image,
even when the document contains images. -/
theorem c10_no_h1_no_hero (ast : List MDNode)
    (h : (preorderList ast).all (fun n => !isH1node n) = true) :
    extractHeroImage ast = none := by
  unfold extractHeroImage
  rw [heroLoop_no_h1]
  intro n hn
  have := List.all_eq_true.mp h n hn
  simpa using this

/-- Witness for C10: a document holding one image and no depth-1 heading
has no hero image. -/
theorem c10_witness : extractHeroImage noH1ImgTree = none :=
  c10_no_h1_no_hero noH1ImgTree (by decide)

/-! ## C3 amended: the undefined-able collections -/

theorem optNonempty_take_if {α : Type} (l : List α) (n : Nat) (hn : 0 < n) :
    optNonempty (if 0 < l.length then some (l.take n) else none) := by
  by_cases hc : 0 < l.length
  · rw [if_pos hc]
    show l.take n ≠ []
    intro he
    have := congrArg List.length he
    rw [List.length_take] at this
    simp only [List.length_nil] at this
    omega
  · rw [if_neg hc]
    trivial

theorem extractStats_nonempty (ast : List MDNode) : optNonempty (extractStats ast) := by
  unfold extractStats
  exact optNonempty_take_if _ 4 (by omega)

theorem extractTechStack_nonempty (ast : List MDNode) : optNonempty (extractTechStack ast) := by
  unfold extractTechStack
  exact optNonempty_take_if _ 8 (by omega)

theorem extractTestimonials_nonempty (ast : List MDNode) :
    optNonempty (extractTestimonials ast) := by
  unfold extractTestimonials
  exact optNonempty_take_if _ 3 (by omega)

/-- C3 amended: of the undefined-able fields, stats, techStack and
testimonials are non-empty whenever present (heroImage is a single value);
badges, by contrast, is always present and may be empty (see the
counterexample). -/
theorem c3_amended_nonempty_optionals (ast : List MDNode) (m : PageModel)
    (h : parseReadme ast = some m) :
    optNonempty m.stats ∧ optNonempty m.techStack ∧ optNonempty m.testimonials := by
  unfold parseReadme at h
  split at h
  · cases h
  · injection h with h'
    rw [← h']
    exact ⟨extractStats_nonempty ast, extractTechStack_nonempty ast,
      extractTestimonials_nonempty ast⟩

/-- Witness for C3 at a document whose stats pass finds one pair. -/
theorem c3_witness :
    parseReadme statParaTree = some statParaModel ∧
    (optNonempty statParaModel.stats ∧ optNonempty statParaModel.techStack ∧
      optNonempty statParaModel.testimonials) :=
  ⟨by decide, c3_amended_nonempty_optionals statParaTree statParaModel (by decide)⟩

/-! ## C6 and C9: secondary link curation -/

theorem optionMapList_length {α β : Type} (f : α → Option β) :
    ∀ (l : List α) (r : List β), optionMapList f l = some r → r.length = l.length := by
  intro l
  induction l with
  | nil =>
    intro r h
    injection h with h'
    rw [← h']
    rfl
  | cons a as ih =>
    intro r h
    unfold optionMapList at h
    cases hf : f a with
    | none => rw [hf] at h; cases h
    | some b =>
      rw [hf] at h
      cases hm : optionMapList f as with
      | none => rw [hm] at h; cases h
      | some rs =>
        rw [hm] at h
        injection h with h'
        rw [← h']
        simp [ih rs hm]

theorem optionMapList_mem {α β : Type} (f : α → Option β) :
    ∀ (l : List α) (r : List β), optionMapList f l = some r →
      ∀ b ∈ r, ∃ a ∈ l, f a = some b := by
  intro l
  induction l with
  | nil =>
    intro r h b hb
    injection h with h'
    rw [← h'] at hb
    cases hb
  | cons a as ih =>
    intro r h b hb
    unfold optionMapList at h
    cases hf : f a with
    | none => rw [hf] at h; cases h
    | some c =>
      rw [hf] at h
      cases hm : optionMapList f as with
      | none => rw [hm] at h; cases h
      | some rs =>
        rw [hm] at h
        injection h with h'
        rw [← h'] at hb
        rcases List.mem_cons.mp hb with hbc | hbr
        · exact ⟨a, List.mem_cons_self a as, by rw [hf, hbc]⟩
        · obtain ⟨x, hx, hfx⟩ := ih rs hm b hbr
          exact ⟨x, List.mem_cons_of_mem a hx, hfx⟩

theorem optionMapList_isSome {α β : Type} (f : α → Option β) :
    ∀ (l : List α), (∀ a ∈ l, (f a).isSome = true) →
      (optionMapList f l).isSome = true := by
  intro l
  induction l with
  | nil => intro _; rfl
  | cons a as ih =>
    intro h
    obtain ⟨b, hb⟩ := Option.isSome_iff_exists.mp (h a (List.mem_cons_self a as))
    obtain ⟨rs, hrs⟩ :=
      Option.isSome_iff_exists.mp (ih (fun x hx => h x (List.mem_cons_of_mem a hx)))
    unfold optionMapList
    rw [hb, hrs]
    rfl

theorem snd_mem_of_enumFrom {α : Type} :
    ∀ (l : List α) (k : Nat) (p : Nat × α), p ∈ l.enumFrom k → p.2 ∈ l := by
  intro l
  induction l with
  | nil => intro k p h; cases h
  | cons a as ih =>
    intro k p h
    rw [List.enumFrom_cons] at h
    rcases List.mem_cons.mp h with hp | hp
    · rw [hp]
      exact List.mem_cons_self a as
    · exact List.mem_cons_of_mem a (ih (k + 1) p hp)

theorem slHead_mem (links : List Link) (cta : Link) :
    ∀ p ∈ slHead links cta, p ∈ slFiltered links cta := by
  intro p hp
  unfold slHead at hp
  rcases List.mem_append.mp hp with h1 | h2
  · cases hg : slGithub links cta with
    | none => rw [hg] at h1; cases h1
    | some g =>
      rw [hg] at h1
      have h1' : p ∈ (if (g.2.href != cta.href) = true then [g] else []) := h1
      by_cases hc : (g.2.href != cta.href) = true
      · rw [if_pos hc] at h1'
        rw [List.mem_singleton.mp h1']
        exact List.mem_of_find?_eq_some hg
      · rw [if_neg hc] at h1'
        cases h1'
  · exact List.mem_of_mem_filter (List.mem_of_mem_take h2)

theorem slBase_mem_filtered (links : List Link) (cta : Link) :
    ∀ p ∈ slBase links cta, p ∈ slFiltered links cta := by
  intro p hp
  rcases List.mem_append.mp hp with h1 | h2
  · exact slHead_mem links cta p h1
  · exact List.mem_of_mem_filter (List.mem_of_mem_take h2)

theorem slBase_snd_mem (links : List Link) (cta : Link) :
    ∀ p ∈ slBase links cta, p.2 ∈ links.filter (slPred cta) := by
  intro p hp
  exact snd_mem_of_enumFrom _ 0 p (slBase_mem_filtered links cta p hp)

/-- C6: every curated secondary link has an href different from the CTA
href and from the bare placeholder, and there are at most 4 of them. -/
theorem c6_secondary_links (links : List Link) (cta : Link) (r : List Link)
    (h : extractSecondaryLinks links cta = some r) :
    r.all (fun e => e.href != cta.href && e.href != "#") = true ∧ r.length ≤ 4 := by
  constructor
  · rw [List.all_eq_true]
    intro e he
    obtain ⟨p, hp, hfp⟩ := optionMapList_mem _ _ _ h e he
    have hsnd : p.2 ∈ links.filter (slPred cta) :=
      slBase_snd_mem links cta p (List.mem_of_mem_take hp)
    have hpred := List.of_mem_filter hsnd
    have hhref : e.href = p.2.href := by
      cases hl : linkLabelFallback p.2 with
      | none => rw [hl] at hfp; cases hfp
      | some lb =>
        rw [hl] at hfp
        injection hfp with h'
        rw [← h']
    rw [hhref]
    unfold slPred at hpred
    rw [Bool.and_eq_true] at hpred
    obtain ⟨h1, _⟩ := hpred
    rw [Bool.not_eq_true', Bool.or_eq_false_iff] at h1
    obtain ⟨hne1, hne2⟩ := h1
    simp [bne, hne1, hne2]
  · rw [optionMapList_length _ _ _ h]
    exact List.length_take_le 4 (slBase links cta)

/-- Witness for C6 at a concrete link list. -/
theorem c6_witness :
    ([⟨"GitHub", "https://github.com/a/b"⟩, ⟨"Twitter", "https://twitter.com/a"⟩] :
        List Link).all
      (fun e => e.href != "#installation" && e.href != "#") = true ∧
    ([⟨"GitHub", "https://github.com/a/b"⟩, ⟨"Twitter", "https://twitter.com/a"⟩] :
        List Link).length ≤ 4 :=
  c6_secondary_links
    [⟨"GitHub", "https://github.com/a/b"⟩, ⟨"Twitter", "https://twitter.com/a"⟩]
    ⟨"Get Started", "#installation"⟩
    [⟨"GitHub", "https://github.com/a/b"⟩, ⟨"Twitter", "https://twitter.com/a"⟩]
    (by decide)

theorem extractLinks_labels (ast : List MDNode) :
    ∀ l ∈ extractLinks ast, l.label ≠ "" := by
  intro l hl
  unfold extractLinks at hl
  obtain ⟨n, _, hfn⟩ := List.mem_filterMap.mp hl
  cases n with
  | link url ch =>
    have hfn' : (if (url != "" && textOfList ch != "") = true then
        some (Link.mk (textOfList ch) url) else none) = some l := hfn
    by_cases hc : (url != "" && textOfList ch != "") = true
    · rw [if_pos hc] at hfn'
      injection hfn' with h'
      rw [← h']
      rw [Bool.and_eq_true] at hc
      exact bne_iff_ne.mp hc.2
    · rw [if_neg hc] at hfn'
      cases hfn'
  | heading d ch => cases hfn
  | paragraph ch => cases hfn
  | text v => cases hfn
  | image u a => cases hfn
  | list ch => cases hfn
  | listItem ch => cases hfn
  | code lg v => cases hfn
  | blockquote ch => cases hfn
  | strong ch => cases hfn
  | emphasis ch => cases hfn

theorem extractSecondaryLinks_total (links : List Link) (cta : Link)
    (hlab : ∀ l ∈ links, l.label ≠ "") :
    (extractSecondaryLinks links cta).isSome = true := by
  unfold extractSecondaryLinks
  apply optionMapList_isSome
  intro p hp
  have hne : p.2.label ≠ "" :=
    hlab p.2 (List.mem_of_mem_filter (slBase_snd_mem links cta p (List.mem_of_mem_take hp)))
  unfold linkLabelFallback
  rw [if_pos (bne_iff_ne.mpr hne)]
  rfl

theorem parseReadme_total (ast : List MDNode) : (parseReadme ast).isSome = true := by
  unfold parseReadme
  have ht := extractSecondaryLinks_total (extractLinks ast)
    (extractCTA (extractLinks ast) (extractSections ast)) (extractLinks_labels ast)
  cases hs : extractSecondaryLinks (extractLinks ast)
      (extractCTA (extractLinks ast) (extractSections ast)) with
  | none => rw [hs] at ht; cases ht
  | some sl => rfl

/-- C9: once parsing succeeds, no extractor throws — every collected link
carries a non-empty label, the secondary-link curation (the only place the
throwing `URL` constructor is reachable, and only for labelless http
links) succeeds whenever all labels are non-empty, and therefore the
assembler always produces a result record. -/
theorem c9_no_throw :
    (∀ ast : List MDNode, ∀ l ∈ extractLinks ast, l.label ≠ "") ∧
    (∀ (links : List Link) (cta : Link), (∀ l ∈ links, l.label ≠ "") →
      (extractSecondaryLinks links cta).isSome = true) ∧
    (∀ ast : List MDNode, (parseReadme ast).isSome = true) :=
  ⟨extractLinks_labels, extractSecondaryLinks_total, parseReadme_total⟩

/-- Witness for C9 at concrete inputs. -/
theorem c9_witness :
    (extractSecondaryLinks [⟨"Docs", "https://docs.example.org"⟩]
      ⟨"Get Started", "#"⟩).isSome = true ∧
    (parseReadme tree8).isSome = true :=
  ⟨c9_no_throw.2.1 [⟨"Docs", "https://docs.example.org"⟩] ⟨"Get Started", "#"⟩ (by decide),
   c9_no_throw.2.2 tree8⟩

/-! ## C8 amended: the two-pass stat collection -/

theorem cappedPush_cons (acc : List Stat) (m : Stat) (ms : List Stat) :
    cappedPush acc (m :: ms) =
      cappedPush (if acc.length < 4 then acc ++ [m] else acc) ms := rfl

theorem take_append_take {α : Type} (n : Nat) (l l2 : List α) :
    (l.take n ++ l2).take n = (l ++ l2).take n := by
  by_cases h : l.length ≤ n
  · rw [List.take_of_length_le h]
  · rw [List.take_append_of_le_length (by rw [List.length_take]; omega),
      List.take_append_of_le_length (by omega), List.take_take]
    simp

theorem cappedPush_eq (ms acc : List Stat) (h : acc.length ≤ 4) :
    cappedPush acc ms = (acc ++ ms).take 4 := by
  induction ms generalizing acc with
  | nil =>
    unfold cappedPush
    rw [List.foldl_nil, List.append_nil, List.take_of_length_le h]
  | cons m ms ih =>
    rw [cappedPush_cons]
    by_cases hlt : acc.length < 4
    · rw [if_pos hlt, ih (acc ++ [m]) (by simp; omega)]
      rw [List.append_assoc]
      rfl
    · rw [if_neg hlt, ih acc h]
      have h4 : 4 ≤ acc.length := by omega
      rw [List.take_append_of_le_length h4, List.take_append_of_le_length h4]

theorem foldl_cappedPush (f : MDNode → List Stat) :
    ∀ (blocks : List MDNode) (acc : List Stat), acc.length ≤ 4 →
      blocks.foldl (fun a n => cappedPush a (f n)) acc =
        (acc ++ (blocks.map f).flatten).take 4 := by
  intro blocks
  induction blocks with
  | nil =>
    intro acc h
    rw [List.foldl_nil, List.map_nil, List.flatten_nil, List.append_nil,
      List.take_of_length_le h]
  | cons b bs ih =>
    intro acc h
    rw [List.foldl_cons, cappedPush_eq (f b) acc h,
      ih _ (by rw [List.length_take]; omega), take_append_take,
      List.map_cons, List.flatten_cons, List.append_assoc]

theorem statsAccum_eq (ast : List MDNode) :
    statsAccum ast = (allStatMatches ast).take 4 := by
  unfold statsAccum allStatMatches
  rw [foldl_cappedPush (fun n => statMatchesStr (textOf n))
      ((preorderList ast).filter isParagraphNode) [] (by simp),
    foldl_cappedPush (fun n => statMatchesStr (textOf n))
      ((preorderList ast).filter isListItemNode) _
      (by rw [List.length_take]; omega),
    List.nil_append, take_append_take]

/-- C8 amended: the stat extractor applies the pattern to the text of
every paragraph node (including the paragraphs nested inside list items)
and then, in a second pass, to the text of every list item, collecting at
most 4 pairs globally; all paragraph-pass pairs precede all list-item-pass
pairs, and text inside a list item is scanned by both passes (see the
counterexample). -/
theorem c8_amended_stats (ast : List MDNode) :
    extractStats ast =
      (if allStatMatches ast = [] then none
       else some ((allStatMatches ast).take 4)) := by
  unfold extractStats
  rw [statsAccum_eq]
  by_cases h : allStatMatches ast = []
  · rw [if_pos h, h]
    rfl
  · rw [if_neg h, if_pos]
    · rw [List.take_take]
      simp
    · rw [List.length_take]
      have := List.length_pos.mpr h
      omega

/-! ## C4 amended: the section orderer on distinct ids -/

theorem prioPlace_cons (kw : String) (kws : List String)
    (entries : List (String × Section)) (ordered : List Section) (added : List String) :
    prioPlace (kw :: kws) entries (ordered, added) =
      (match entries.find? (fun p => !(decide (p.1 ∈ added)) && idKwMatch p.1 kw) with
       | some p => prioPlace kws entries (ordered ++ [p.2], added ++ [p.1])
       | none => prioPlace kws entries (ordered, added)) := rfl

theorem claimPlace_cons (kw : String) (kws : List String) (secs : List Section)
    (ordered : List Section) (placed : List String) :
    claimPlace (kw :: kws) secs (ordered, placed) =
      (match secs.find? (fun s => !(decide (s.id ∈ placed)) && idKwMatch s.id kw) with
       | some s => claimPlace kws secs (ordered ++ [s], placed ++ [s.id])
       | none => claimPlace kws secs (ordered, placed)) := rfl

theorem find?_cons_eq {α : Type} (p : α → Bool) (a : α) (l : List α) :
    (a :: l).find? p = if p a = true then some a else l.find? p := by
  by_cases h : p a = true
  · rw [List.find?_cons_of_pos _ h, if_pos h]
  · rw [List.find?_cons_of_neg _ h, if_neg h]

theorem find?_entry (secs : List Section) (added : List String) (kw : String) :
    (secs.map (fun s => (s.id, s))).find?
        (fun p => !(decide (p.1 ∈ added)) && idKwMatch p.1 kw) =
      (secs.find? (fun s => !(decide (s.id ∈ added)) && idKwMatch s.id kw)).map
        (fun s => (s.id, s)) := by
  induction secs with
  | nil => rfl
  | cons s ss ih =>
    rw [List.map_cons,
      find?_cons_eq (fun p => !(decide (p.1 ∈ added)) && idKwMatch p.1 kw) (s.id, s) _,
      find?_cons_eq (fun s => !(decide (s.id ∈ added)) && idKwMatch s.id kw) s ss]
    by_cases hp : (!(decide (s.id ∈ added)) && idKwMatch s.id kw) = true
    · have hp' : ((fun p : String × Section =>
          !(decide (p.1 ∈ added)) && idKwMatch p.1 kw) (s.id, s)) = true := hp
      rw [if_pos hp', if_pos hp]
      rfl
    · have hp' : ¬ (((fun p : String × Section =>
          !(decide (p.1 ∈ added)) && idKwMatch p.1 kw) (s.id, s)) = true) := hp
      rw [if_neg hp', if_neg hp, ih]

theorem prioPlace_map_eq :
    ∀ (kws : List String) (secs : List Section) (ordered : List Section) (added : List String),
      prioPlace kws (secs.map (fun s => (s.id, s))) (ordered, added) =
        claimPlace kws secs (ordered, added) := by
  intro kws
  induction kws with
  | nil => intros; rfl
  | cons kw kws ih =>
    intro secs ordered added
    rw [prioPlace_cons, claimPlace_cons, find?_entry]
    cases hf : secs.find? (fun s => !(decide (s.id ∈ added)) && idKwMatch s.id kw) with
    | none => exact ih secs ordered added
    | some s => exact ih secs (ordered ++ [s]) (added ++ [s.id])

theorem mapSet_fresh (m : List (String × Section)) (k : String) (v : Section)
    (h : ∀ q ∈ m, q.1 ≠ k) : mapSet m k v = m ++ [(k, v)] := by
  have h' : ¬ (m.any (fun p => p.1 == k) = true) := by
    intro hany
    obtain ⟨q, hq, hqk⟩ := List.any_eq_true.mp hany
    exact h q hq (by simpa using hqk)
  unfold mapSet
  rw [if_neg h']

theorem buildMap_aux :
    ∀ (secs : List Section) (m : List (String × Section)),
      (∀ s ∈ secs, jsToLower s.id = s.id) →
      (secs.map Section.id).Nodup →
      (∀ s ∈ secs, ∀ q ∈ m, q.1 ≠ s.id) →
      secs.foldl (fun m s => mapSet m (jsToLower s.id) s) m =
        m ++ secs.map (fun s => (s.id, s)) := by
  intro secs
  induction secs with
  | nil => intro m _ _ _; rw [List.foldl_nil, List.map_nil, List.append_nil]
  | cons s ss ih =>
    intro m hlow hnd hfresh
    have hnd2 : (s.id :: ss.map Section.id).Nodup := by simpa using hnd
    have hnotm : s.id ∉ ss.map Section.id := (List.nodup_cons.mp hnd2).1
    have hndtail : (ss.map Section.id).Nodup := (List.nodup_cons.mp hnd2).2
    simp only [List.foldl_cons]
    rw [hlow s (List.mem_cons_self s ss),
      mapSet_fresh m s.id s (fun q hq => hfresh s (List.mem_cons_self s ss) q hq),
      ih (m ++ [(s.id, s)]) (fun x hx => hlow x (List.mem_cons_of_mem s hx))
        hndtail ?_, List.map_cons, List.append_assoc]
    · rfl
    · intro x hx q hq
      rcases List.mem_append.mp hq with h1 | h2
      · exact hfresh x (List.mem_cons_of_mem s hx) q h1
      · rw [List.mem_singleton.mp h2]
        intro hcontra
        have hcontra' : s.id = x.id := hcontra
        exact hnotm (by rw [hcontra']; exact List.mem_map_of_mem Section.id hx)

theorem buildSectionMap_eq (secs : List Section)
    (hlow : ∀ s ∈ secs, jsToLower s.id = s.id)
    (hnd : (secs.map Section.id).Nodup) :
    buildSectionMap secs = secs.map (fun s => (s.id, s)) := by
  unfold buildSectionMap
  rw [buildMap_aux secs [] hlow hnd (by intro s _ q hq; cases hq), List.nil_append]

theorem order_eq_claimOrder (secs : List Section)
    (hlow : ∀ s ∈ secs, jsToLower s.id = s.id)
    (hnd : (secs.map Section.id).Nodup) :
    orderSectionsIntelligently secs = claimOrder secs := by
  unfold orderSectionsIntelligently claimOrder
  rw [buildSectionMap_eq secs hlow hnd, prioPlace_map_eq]
  congr 1
  apply List.filter_congr
  intro s hs
  rw [hlow s hs]

/-- C4 amended: the ordering of the concrete example of the spec holds, and on
any section list with pairwise-distinct (already lower-case) ids the
orderer behaves exactly as the claim describes: for each keyword in
priority order the first not-yet-placed matching section is appended, each
section is placed at most once, and the sections never placed (in
particular those matching no keyword) follow in document order.  With
duplicate ids the claim fails: the map keeps only the last section of each
id (see the counterexample). -/
theorem c4_amended_ordering :
    orderSectionsIntelligently orderExSecs =
      [⟨"installation", "Install", "y"⟩, ⟨"faq", "FAQ", "z"⟩,
       ⟨"license", "License", "x"⟩] ∧
    ∀ (secs : List Section), (∀ s ∈ secs, jsToLower s.id = s.id) →
      (secs.map Section.id).Nodup →
      orderSectionsIntelligently secs = claimOrder secs :=
  ⟨by decide, order_eq_claimOrder⟩

/-- Witness for C4 at the ordering example of the spec. -/
theorem c4_witness :
    orderSectionsIntelligently orderExSecs = claimOrder orderExSecs :=
  c4_amended_ordering.2 orderExSecs (by decide) (by decide)

/-! ## C2 amended: unique ids under distinct slugs -/

theorem claimPlace_spec :
    ∀ (kws : List String) (secs : List Section) (ordered : List Section)
      (placed : List String),
      ordered.map Section.id = placed → placed.Nodup →
      ((claimPlace kws secs (ordered, placed)).1.map Section.id =
          (claimPlace kws secs (ordered, placed)).2 ∧
        (claimPlace kws secs (ordered, placed)).2.Nodup) := by
  intro kws
  induction kws with
  | nil => intro secs ordered placed hmap hnd; exact ⟨hmap, hnd⟩
  | cons kw kws ih =>
    intro secs ordered placed hmap hnd
    rw [claimPlace_cons]
    cases hf : secs.find? (fun s => !(decide (s.id ∈ placed)) && idKwMatch s.id kw) with
    | none => exact ih secs ordered placed hmap hnd
    | some s =>
      have hpred := List.find?_some hf
      rw [Bool.and_eq_true] at hpred
      have hnotmem : s.id ∉ placed := by
        have h1 := hpred.1
        rw [Bool.not_eq_true'] at h1
        simpa using h1
      refine ih secs (ordered ++ [s]) (placed ++ [s.id]) ?_ ?_
      · rw [List.map_append, hmap]
        rfl
      · rw [List.nodup_append]
        refine ⟨hnd, List.nodup_singleton _, ?_⟩
        intro x hx hx2
        rw [List.mem_singleton.mp hx2] at hx
        exact hnotmem hx

theorem claimOrder_nodup (secs : List Section)
    (hnd : (secs.map Section.id).Nodup) :
    ((claimOrder secs).map Section.id).Nodup := by
  unfold claimOrder
  rw [List.map_append]
  obtain ⟨hmap, hnd2⟩ := claimPlace_spec priorityOrder secs [] [] rfl List.nodup_nil
  rw [List.nodup_append]
  refine ⟨by rw [hmap]; exact hnd2, ?_, ?_⟩
  · exact List.Nodup.sublist (List.Sublist.map _ (List.filter_sublist _)) hnd
  · intro x hx1 hx2
    rw [hmap] at hx1
    obtain ⟨s, hs, hsx⟩ := List.mem_map.mp hx2
    have hq := List.of_mem_filter hs
    rw [Bool.not_eq_true'] at hq
    have hnot : s.id ∉ (claimPlace priorityOrder secs ([], [])).2 := by simpa using hq
    exact hnot (by rw [hsx]; exact hx1)

theorem keepSlug_toLower (c : Char) (h : keepSlugChar c = true) : jsCharToLower c = c := by
  have h' := h
  simp only [keepSlugChar, Bool.or_eq_true, decide_eq_true_eq] at h'
  unfold jsCharToLower
  rw [if_neg (by omega)]

theorem map_lower_fix :
    ∀ (l : List Char), (∀ c ∈ l, keepSlugChar c = true) → l.map jsCharToLower = l := by
  intro l
  induction l with
  | nil => intro _; rfl
  | cons c cs ih =>
    intro h
    rw [List.map_cons, keepSlug_toLower c (h c (List.mem_cons_self c cs)),
      ih (fun x hx => h x (List.mem_cons_of_mem c hx))]

theorem lower_fix (s : String) (h : ∀ c ∈ s.data, keepSlugChar c = true) :
    jsToLower s = s := by
  unfold jsToLower
  rw [map_lower_fix s.data h]

theorem slugOf_chars (low : String) : ∀ c ∈ (slugOf low).data, keepSlugChar c = true := by
  intro c hc
  have hc' : c ∈ (wsToHyphenAux (low.data.length + 1) low.data).filter keepSlugChar := hc
  exact List.of_mem_filter hc'

theorem sectionIdTitle_fst (txt : String) :
    (sectionIdTitle txt).1 = slugOf (jsTrim (stripGlyphs (jsToLower txt))) := rfl

theorem finalizeSection_lower (cur : Option (String × String)) (cn : List MDNode)
    (hcur : ∀ i t, cur = some (i, t) → jsToLower i = i) :
    ∀ x ∈ finalizeSection cur cn, jsToLower x.id = x.id := by
  intro x hx
  cases cur with
  | none => cases hx
  | some it =>
    obtain ⟨i, t⟩ := it
    have hx' : x ∈ (if jsTrim (joinTwoNL (cn.map nodeToString)) = "" then ([] : List Section)
        else [⟨i, t, jsTrim (joinTwoNL (cn.map nodeToString))⟩]) := hx
    by_cases hmd : jsTrim (joinTwoNL (cn.map nodeToString)) = ""
    · rw [if_pos hmd] at hx'
      cases hx'
    · rw [if_neg hmd] at hx'
      rw [List.mem_singleton.mp hx']
      exact hcur i t rfl

theorem sectionsLoop_lower :
    ∀ (l : List MDNode) (cur : Option (String × String)) (cn : List MDNode)
      (acc : List Section),
      (∀ s ∈ acc, jsToLower s.id = s.id) →
      (∀ i t, cur = some (i, t) → jsToLower i = i) →
      ∀ s ∈ sectionsLoop l cur cn acc, jsToLower s.id = s.id := by
  intro l
  induction l with
  | nil =>
    intro cur cn acc hacc hcur s hs
    have hs' : s ∈ acc ++ finalizeSection cur cn := hs
    rcases List.mem_append.mp hs' with h1 | h2
    · exact hacc s h1
    · exact finalizeSection_lower cur cn hcur s h2
  | cons n ns ih =>
    intro cur cn acc hacc hcur s hs
    have hacc' : ∀ x ∈ acc ++ finalizeSection cur cn, jsToLower x.id = x.id := by
      intro x hx
      rcases List.mem_append.mp hx with h1 | h2
      · exact hacc x h1
      · exact finalizeSection_lower cur cn hcur x h2
    cases n with
    | heading d ch =>
      have hnext : ∀ i t,
          (some (sectionIdTitle (textOfList ch)) : Option (String × String)) = some (i, t) →
          jsToLower i = i := by
        intro i t hit
        injection hit with h'
        have hi : i = (sectionIdTitle (textOfList ch)).1 := by rw [h']
        rw [hi, sectionIdTitle_fst]
        exact lower_fix _ (slugOf_chars _)
      cases cur with
      | some it =>
        have hs' : s ∈ (if 2 ≤ d then
            sectionsLoop ns (some (sectionIdTitle (textOfList ch))) []
              (acc ++ finalizeSection (some it) cn)
          else sectionsLoop ns (some it) (cn ++ [MDNode.heading d ch]) acc) := hs
        by_cases hd : 2 ≤ d
        · rw [if_pos hd] at hs'
          exact ih _ _ _ hacc' hnext s hs'
        · rw [if_neg hd] at hs'
          exact ih _ _ _ hacc hcur s hs'
      | none =>
        have hs' : s ∈ (if 2 ≤ d then
            sectionsLoop ns (some (sectionIdTitle (textOfList ch))) []
              (acc ++ finalizeSection none cn)
          else sectionsLoop ns none cn acc) := hs
        by_cases hd : 2 ≤ d
        · rw [if_pos hd] at hs'
          exact ih _ _ _ hacc' hnext s hs'
        · rw [if_neg hd] at hs'
          exact ih _ _ _ hacc hcur s hs'
    | paragraph ch =>
      cases cur with
      | some it => exact ih _ _ _ hacc hcur s hs
      | none => exact ih _ _ _ hacc hcur s hs
    | text v =>
      cases cur with
      | some it => exact ih _ _ _ hacc hcur s hs
      | none => exact ih _ _ _ hacc hcur s hs
    | link u ch =>
      cases cur with
      | some it => exact ih _ _ _ hacc hcur s hs
      | none => exact ih _ _ _ hacc hcur s hs
    | image u a =>
      cases cur with
      | some it => exact ih _ _ _ hacc hcur s hs
      | none => exact ih _ _ _ hacc hcur s hs
    | list ch =>
      cases cur with
      | some it => exact ih _ _ _ hacc hcur s hs
      | none => exact ih _ _ _ hacc hcur s hs
    | listItem ch =>
      cases cur with
      | some it => exact ih _ _ _ hacc hcur s hs
      | none => exact ih _ _ _ hacc hcur s hs
    | code lg v =>
      cases cur with
      | some it => exact ih _ _ _ hacc hcur s hs
      | none => exact ih _ _ _ hacc hcur s hs
    | blockquote ch =>
      cases cur with
      | some it => exact ih _ _ _ hacc hcur s hs
      | none => exact ih _ _ _ hacc hcur s hs
    | strong ch =>
      cases cur with
      | some it => exact ih _ _ _ hacc hcur s hs
      | none => exact ih _ _ _ hacc hcur s hs
    | emphasis ch =>
      cases cur with
      | some it => exact ih _ _ _ hacc hcur s hs
      | none => exact ih _ _ _ hacc hcur s hs

theorem extractSections_lower (ast : List MDNode) :
    ∀ s ∈ extractSections ast, jsToLower s.id = s.id := by
  intro s hs
  exact sectionsLoop_lower ast none [] []
    (by intro x hx; cases hx) (by intro i t hit; cases hit) s hs

/-- C2 amended: whenever the segmented sections' slugs are pairwise
distinct, the ids of the sections in the final result record are pairwise
distinct; two same-slug headings whose slug matches no priority keyword
both survive with the same id (see the counterexample). -/
theorem c2_amended_unique_ids (ast : List MDNode) (m : PageModel)
    (h : parseReadme ast = some m)
    (hnd : ((extractSections ast).map Section.id).Nodup) :
    (m.sections.map Section.id).Nodup := by
  have hsec : m.sections = orderSectionsIntelligently (extractSections ast) := by
    unfold parseReadme at h
    cases hs : extractSecondaryLinks (extractLinks ast)
        (extractCTA (extractLinks ast) (extractSections ast)) with
    | none => rw [hs] at h; cases h
    | some sl =>
      rw [hs] at h
      injection h with h'
      rw [← h']
  rw [hsec, order_eq_claimOrder _ (extractSections_lower ast) hnd]
  exact claimOrder_nodup _ hnd

/-- Witness for C2 at a one-section document. -/
theorem c2_witness :
    parseReadme alphaTree = some alphaModel ∧
    (alphaModel.sections.map Section.id).Nodup :=
  ⟨by decide, c2_amended_unique_ids alphaTree alphaModel (by decide) (by decide)⟩

end R2L
